import Mathlib

/-!
Verification development for the HSK/USDT price monitor
(`src/enhanced_hsk_monitor.py`).

The program is shallowly embedded: prices are rationals (`ℚ`), timestamps
are naturals, the `deque(maxlen=·)` rolling window is a bounded list, and
every fallible computation returns `Option`/`Except`.  Python's negative
slice `xs[-n:]`, its truthiness test on optional floats (`if x:`), and its
`int(·)` truncation are embedded by dedicated helpers so that each Lean
definition can be diffed line by line against the Python it translates.

Floating-point arithmetic is modelled by exact rational arithmetic, the
`statistics.stdev` call by the real square root of the sample variance, and
the decimal rendering of numbers inside interpretation strings by `toString`
(no claim depends on the rendered digits).
-/

namespace HSK

/-- Python's slice `xs[-n:]`: the last `n` elements, the whole list when
`n = 0` (Python's `-0` is `0`) or when `n` exceeds the length. -/
def pyLastSlice (n : ℕ) (xs : List ℚ) : List ℚ :=
  if n = 0 then xs else xs.drop (xs.length - n)

/-- Python's truthiness test `if x:` on an optional number: `None` and `0`
are falsy, every other number is truthy. -/
def pyTruthy (x : Option ℚ) : Bool :=
  match x with
  | none => false
  | some v => decide (v ≠ 0)

/-- Python's `int(·)` on a rational: truncation toward zero. -/
def pyInt (q : ℚ) : ℤ :=
  if 0 ≤ q then ⌊q⌋ else ⌈q⌉

/-- Decimal rendering of a number inside a message.  The Python code formats
with `:.2f` / `:.6f`; no claim depends on the rendered digits, only on which
statement a number is rendered into, so the rendering itself is opaque. -/
def ratStr (q : ℚ) : String := toString q

/-- State of `TechnicalAnalyzer` (`src/enhanced_hsk_monitor.py:27-31`):
two `deque(maxlen=lookback_period)` buffers and the capacity itself. -/
structure TechnicalAnalyzer where
  prices : List ℚ
  timestamps : List ℕ
  lookback_period : ℕ

/-- `TechnicalAnalyzer.add_price` (`:33-38`): append to both deques; a
`deque(maxlen=N)` keeps only the last `N` elements, evicting from the left. -/
def add_price (s : TechnicalAnalyzer) (price : ℚ) (timestamp : ℕ) : TechnicalAnalyzer :=
  { s with
    prices := (s.prices ++ [price]).drop (s.prices.length + 1 - s.lookback_period)
    timestamps := (s.timestamps ++ [timestamp]).drop (s.timestamps.length + 1 - s.lookback_period) }

/-- A sequence of `add_price` calls (one per monitor cycle). -/
def add_prices (s : TechnicalAnalyzer) (ps : List (ℚ × ℕ)) : TechnicalAnalyzer :=
  ps.foldl (fun st pt => add_price st pt.1 pt.2) s

/-- `TechnicalAnalyzer.calculate_sma` (`:40-48`).  `period = None` selects the
default `min(lookback_period, len(prices))`.  Python's `sum(...)/period`
raises `ZeroDivisionError` when `period == 0`, embedded as `Except.error`. -/
def calculate_sma (s : TechnicalAnalyzer) (period? : Option ℕ) : Except Unit (Option ℚ) :=
  let period := match period? with
    | none => min s.lookback_period s.prices.length
    | some p => p
  if s.prices.length < period then Except.ok none
  else if period = 0 then Except.error ()
  else Except.ok (some ((pyLastSlice period s.prices).sum / (period : ℚ)))

/-- `TechnicalAnalyzer.calculate_ema` (`:50-62`): seed with the oldest price
of the last-`period` slice, then fold the multiplier update forward. -/
def calculate_ema (s : TechnicalAnalyzer) (period : ℕ) : Option ℚ :=
  if s.prices.length < period then none
  else
    let prices := pyLastSlice period s.prices
    let multiplier : ℚ := 2 / ((period : ℚ) + 1)
    some (prices.tail.foldl (fun ema price => price * multiplier + ema * (1 - multiplier))
      (prices.headD 0))

/-- Indices ranged over by the RSI loop (`:72-74`): `range(len - period, len)`
with `i == 0` skipped by `continue`. -/
def rsiIdx (prices : List ℚ) (period : ℕ) : List ℕ :=
  ((List.range prices.length).drop (prices.length - period)).filter (fun i => i ≠ 0)

/-- Gains sampled by the RSI loop (`:75-80`). -/
def rsiGains (prices : List ℚ) (period : ℕ) : List ℚ :=
  (rsiIdx prices period).map (fun i =>
    if prices.getD i 0 > prices.getD (i - 1) 0 then prices.getD i 0 - prices.getD (i - 1) 0
    else 0)

/-- Losses sampled by the RSI loop (`:75-80`). -/
def rsiLosses (prices : List ℚ) (period : ℕ) : List ℚ :=
  (rsiIdx prices period).map (fun i =>
    if prices.getD i 0 > prices.getD (i - 1) 0 then 0
    else prices.getD (i - 1) 0 - prices.getD i 0)

/-- `TechnicalAnalyzer.calculate_rsi` (`:64-93`). -/
def calculate_rsi (s : TechnicalAnalyzer) (period : ℕ) : Option ℚ :=
  if s.prices.length < period + 1 then none
  else
    let gains := rsiGains s.prices period
    let losses := rsiLosses s.prices period
    if gains.length < period ∨ losses.length < period then none
    else
      let avg_gain := (pyLastSlice period gains).sum / (period : ℚ)
      let avg_loss := (pyLastSlice period losses).sum / (period : ℚ)
      if avg_loss = 0 then some 100
      else some (100 - 100 / (1 + avg_gain / avg_loss))

/-- `TechnicalAnalyzer.get_trend` (`:95-113`).  `len(set(recent)) == 1` is
embedded as `recent.toFinset.card = 1`; the labels are the source's strings
(`数据不足` insufficient, `中性` neutral, `看涨` bullish, `看涨反转` bullish
reversal, `看跌` bearish, `看跌反转` bearish reversal). -/
def get_trend (s : TechnicalAnalyzer) : String :=
  if s.prices.length < 5 then "数据不足"
  else
    let recent := pyLastSlice 5 s.prices
    if recent.toFinset.card = 1 then "中性"
    else if recent.getD 4 0 > recent.getD 0 0 then
      if recent.getD 4 0 > recent.getD 3 0 then "看涨" else "看涨反转"
    else
      if recent.getD 4 0 < recent.getD 3 0 then "看跌" else "看跌反转"

/-- Result of `TechnicalAnalyzer.analyze_support_resistance`. -/
structure SupRes where
  support : Option ℚ
  resistance : Option ℚ

/-- `TechnicalAnalyzer.analyze_support_resistance` (`:115-125`).  Python's
`min`/`max` on a nonempty list are `List.min?`/`List.max?` (the guard makes
the list nonempty, so the `Option` is always `some`). -/
def analyze_support_resistance (s : TechnicalAnalyzer) (window_size : ℕ) : SupRes :=
  if s.prices.length < 5 then ⟨none, none⟩
  else
    let recent := if window_size ≤ s.prices.length then pyLastSlice window_size s.prices
      else s.prices
    ⟨recent.min?, recent.max?⟩

/-- Sample variance (the square of `statistics.stdev`): mean of squared
deviations over `n - 1`. -/
def sampleVariance (xs : List ℚ) : ℚ :=
  let mean := xs.sum / (xs.length : ℚ)
  (xs.map (fun x => (x - mean) ^ 2)).sum / ((xs.length : ℚ) - 1)

/-- `statistics.stdev`: square root of the sample variance. -/
noncomputable def stdev (xs : List ℚ) : ℝ :=
  Real.sqrt ((sampleVariance xs : ℚ) : ℝ)

/-- `TechnicalAnalyzer.get_volatility` (`:127-136`). -/
noncomputable def get_volatility (s : TechnicalAnalyzer) (period : ℕ) : Option ℝ :=
  if s.prices.length < period then none
  else
    let recent := pyLastSlice period s.prices
    if recent.toFinset.card = 1 then some 0
    else some (stdev recent)

/-- `TechnicalAnalyzer.get_momentum` (`:138-145`): `prices[-period]` is the
element at position `len - period`, `prices[-1]` the last element. -/
def get_momentum (s : TechnicalAnalyzer) (period : ℕ) : Option ℚ :=
  if s.prices.length < period then none
  else
    let old_price := s.prices.getD (s.prices.length - period) 0
    let current_price := s.prices.getD (s.prices.length - 1) 0
    some ((current_price - old_price) / old_price * 100)

/-! K-line analysis (`get_kline_analysis`, `:147-210`): pure computation on
the batch of closing prices extracted from one candlestick fetch. -/

/-- Python's `max` of a list, `0` as the (unreachable) empty default. -/
def listMax (xs : List ℚ) : ℚ := (xs.max?).getD 0

/-- Python's `min` of a list, `0` as the (unreachable) empty default. -/
def listMin (xs : List ℚ) : ℚ := (xs.min?).getD 0

/-- The slice `closes[max(0, i-5):i+1]` (`:191-192`): a trailing sub-window
of up to 6 points ending at index `i`, clipped at the batch start. -/
def trailingWindow (closes : List ℚ) (i : ℕ) : List ℚ :=
  (closes.drop (i - 5)).take (i + 1 - (i - 5))

/-- `recent_highs` (`:191`): per-index trailing-window maxima, sorted
descending, first five kept. -/
def recent_highs (closes : List ℚ) : List ℚ :=
  (((List.range closes.length).map (fun i => listMax (trailingWindow closes i))).mergeSort
    (fun a b => decide (b ≤ a))).take 5

/-- `recent_lows` (`:192`): per-index trailing-window minima, sorted
ascending, first five kept. -/
def recent_lows (closes : List ℚ) : List ℚ :=
  (((List.range closes.length).map (fun i => listMin (trailingWindow closes i))).mergeSort
    (fun a b => decide (a ≤ b))).take 5

/-- `resistance = recent_highs[0] if recent_highs else None` (`:194`). -/
def kline_resistance (closes : List ℚ) : Option ℚ := (recent_highs closes).head?

/-- `support = recent_lows[0] if recent_lows else None` (`:195`). -/
def kline_support (closes : List ℚ) : Option ℚ := (recent_lows closes).head?

/-- `recent_closes = closes[-10:] if len(closes) >= 10 else closes` (`:181`). -/
def klineRecentCloses (closes : List ℚ) : List ℚ :=
  if 10 ≤ closes.length then pyLastSlice 10 closes else closes

/-- K-line trend (`:182-185`): strict comparison of the newest close of the
slice against its oldest close. -/
def klineTrend (closes : List ℚ) : String :=
  let recent := klineRecentCloses closes
  if recent.getLastD 0 > recent.headD 0 then "看涨" else "看跌"

/-- K-line volatility (`:198`): `statistics.stdev(closes)` when the batch has
more than one point, else `0`. -/
noncomputable def klineVolatility (closes : List ℚ) : ℝ :=
  if 1 < closes.length then stdev closes else 0

/-! Interpretation synthesis (`generate_interpretation`, `:371-424`): an
ordered list of qualitative statements, one block per indicator, each block
guarded by Python truthiness on its indicator. -/

/-- Trend block (`:375-380`). -/
def trendBlock (trend : String) : List String :=
  if trend ≠ "数据不足" then
    if trend = "看涨" ∨ trend = "看涨反转" then
      ["短期趋势: " ++ trend ++ "，价格可能继续上涨"]
    else if trend = "看跌" ∨ trend = "看跌反转" then
      ["短期趋势: " ++ trend ++ "，价格可能继续下跌"]
    else []
  else []

/-- Price-vs-SMA block (`:382-387`); `int(sma*1000000)/1000000` is the
non-rounding truncation of the SMA to six decimal places. -/
def smaBlock (current_price : ℚ) (sma : Option ℚ) : List String :=
  if pyTruthy sma then
    let m := sma.getD 0
    let shown : ℚ := (pyInt (m * 1000000) : ℚ) / 1000000
    if current_price > m then ["价格高于" ++ ratStr shown ++ " SMA，看涨信号"]
    else ["价格低于" ++ ratStr shown ++ " SMA，看跌信号"]
  else []

/-- RSI block (`:389-396`): guarded by `if rsi:`, so both `None` and `0` skip
the block. -/
def rsiBlock (rsi : Option ℚ) : List String :=
  if pyTruthy rsi then
    let r := rsi.getD 0
    if r > 70 then ["RSI超买(" ++ ratStr r ++ ")，可能出现回调"]
    else if r < 30 then ["RSI超卖(" ++ ratStr r ++ ")，可能出现反弹"]
    else ["RSI中性(" ++ ratStr r ++ ")，趋势稳定"]
  else []

/-- Support/resistance block (`:398-405`); Python's float literals `1.001`
and `0.999` are the rationals `1001/1000` and `999/1000`. -/
def srBlock (current_price : ℚ) (sup_res : SupRes) : List String :=
  if pyTruthy sup_res.support && pyTruthy sup_res.resistance then
    let s := sup_res.support.getD 0
    let r := sup_res.resistance.getD 0
    if current_price ≤ s * (1001 / 1000) then ["接近支撑位" ++ ratStr s ++ "，可能获得支撑"]
    else if current_price ≥ r * (999 / 1000) then ["接近阻力位" ++ ratStr r ++ "，可能遇到阻力"]
    else ["价格在支撑" ++ ratStr s ++ "与阻力" ++ ratStr r ++ "之间运行"]
  else []

/-- Momentum block (`:407-413`): values with `1 ≤ |momentum| ≤ 5` produce no
statement. -/
def momentumBlock (momentum : Option ℚ) : List String :=
  if pyTruthy momentum then
    let m := momentum.getD 0
    if |m| > 5 then
      [if m > 0 then "动量强劲(" ++ ratStr m ++ "%)，上行趋势明显"
       else "动量强劲(" ++ ratStr m ++ "%)，下行趋势明显"]
    else if |m| < 1 then ["动量较弱(" ++ ratStr m ++ "%)，可能盘整"]
    else []
  else []

/-- K-line trend block (`:415-417`): skipped when the parsed trend is the
sentinel `未知` (unknown). -/
def klineBlock (kline_trend : String) : List String :=
  if kline_trend ≠ "未知" then ["K线趋势: " ++ kline_trend ++ " (6小时周期)"] else []

/-- The statement list accumulated by `generate_interpretation` before the
fallback check (`:373-417`), in the source's fixed order. -/
def interpretationList (current_price : ℚ) (trend : String) (sma rsi : Option ℚ)
    (sup_res : SupRes) (momentum : Option ℚ) (kline_trend : String) : List String :=
  trendBlock trend ++ smaBlock current_price sma ++ rsiBlock rsi ++
    srBlock current_price sup_res ++ momentumBlock momentum ++ klineBlock kline_trend

/-- The statement list after the fallback rule (`:419-421`): when no rule
produced a statement, the single fallback statement is appended. -/
def finalInterpretations (current_price : ℚ) (trend : String) (sma rsi : Option ℚ)
    (sup_res : SupRes) (momentum : Option ℚ) (kline_trend : String) : List String :=
  let l := interpretationList current_price trend sma rsi sup_res momentum kline_trend
  if l = [] then ["技术指标不足，建议观望"] else l

/-- `generate_interpretation` (`:371-424`).  The parameters `volatility`,
`kline_volatility`, `kline_support` and `kline_resistance` are accepted but
never read by the source body. -/
def generate_interpretation (current_price : ℚ) (trend : String) (sma rsi : Option ℚ)
    (sup_res : SupRes) (volatility : Option ℝ) (momentum : Option ℚ)
    (kline_trend kline_volatility kline_support kline_resistance : String) : String :=
  "市场解读: " ++ String.intercalate "；"
    (finalInterpretations current_price trend sma rsi sup_res momentum kline_trend)

/-! The monitor loop (`main`, `:427-459`) and the ticker fetch
(`get_hsk_price`, `:213-269`), reduced to their effect on the
`TechnicalAnalyzer` window. -/

/-- The ticker record built from a successful fetch (`:238-247`). -/
structure TickerData where
  price : ℚ
  change_percentage : ℚ
  lowest_ask : ℚ
  highest_bid : ℚ
  high_24h : ℚ
  low_24h : ℚ
  base_volume : ℚ
  quote_volume : ℚ

/-- `get_hsk_price` (`:213-269`) as a function of the fetch outcome: `none`
models every failure path (HTTP error, timeout, connection error, JSON parse
failure, non-list payload — all `return None`), `some []` the empty-list
payload (also `return None`), and `some (t :: _)` a single-element-or-more
list payload, whose first element is returned. -/
def get_hsk_price (resp : Option (List TickerData)) : Option TickerData :=
  match resp with
  | none => none
  | some [] => none
  | some (t :: _) => some t

/-- One iteration of the `main` polling loop (`:434-459`) restricted to its
effect on the analyzer state: on a successful fetch the price is appended
(`tech_analyzer.add_price(current_price)`, `:445`), on a failed fetch the
cycle only logs and the analyzer is untouched. -/
def mainCycle (s : TechnicalAnalyzer) (resp : Option (List TickerData)) (now : ℕ) :
    TechnicalAnalyzer :=
  match get_hsk_price resp with
  | none => s
  | some d => add_price s d.price now

/-! Auxiliary lemmas shared by the claim theorems. -/

/-- `add_price` never changes the capacity. -/
theorem lookback_add_price (s : TechnicalAnalyzer) (p : ℚ) (t : ℕ) :
    (add_price s p t).lookback_period = s.lookback_period := rfl

/-- One `add_price` keeps the window within capacity. -/
theorem length_add_price_le (s : TechnicalAnalyzer) (p : ℚ) (t : ℕ)
    (h : s.prices.length ≤ s.lookback_period) :
    (add_price s p t).prices.length ≤ s.lookback_period := by
  simp only [add_price, List.length_drop, List.length_append, List.length_cons,
    List.length_nil]
  omega

/-- Any sequence of `add_price` calls keeps the window within the starting
capacity (which the calls never change). -/
theorem add_prices_length_le (ps : List (ℚ × ℕ)) :
    ∀ s : TechnicalAnalyzer, s.prices.length ≤ s.lookback_period →
      (add_prices s ps).prices.length ≤ s.lookback_period ∧
      (add_prices s ps).lookback_period = s.lookback_period := by
  induction ps with
  | nil => exact fun s h => ⟨h, rfl⟩
  | cons pt ps ih =>
    intro s h
    have hstep : (add_price s pt.1 pt.2).prices.length ≤ (add_price s pt.1 pt.2).lookback_period := by
      rw [lookback_add_price]
      exact length_add_price_le s pt.1 pt.2 h
    have hrec := ih (add_price s pt.1 pt.2) hstep
    have hfold : add_prices s (pt :: ps) = add_prices (add_price s pt.1 pt.2) ps := by
      simp [add_prices]
    rw [hfold]
    exact ⟨hrec.1.trans_eq (lookback_add_price s pt.1 pt.2), hrec.2.trans (lookback_add_price s pt.1 pt.2)⟩

/-- Dropping fewer elements than the length preserves the last element. -/
theorem getLast?_drop_of_lt (l : List ℚ) (k : ℕ) (h : k < l.length) :
    (l.drop k).getLast? = l.getLast? := by
  rw [List.getLast?_eq_getElem?, List.getLast?_eq_getElem?, List.getElem?_drop,
    List.length_drop]
  congr 1
  omega

/-! C3 — K-line trend tie-break. -/

/-- C3 counterexample: on the batch `[1, 1]` the newest close equals the
oldest close of the slice, and the code classifies the K-line trend as
bearish (`看跌`), not bullish as the claim states. -/
theorem kline_trend_tie_is_bearish : klineTrend [(1 : ℚ), 1] = "看跌" := by
  simp [klineTrend, klineRecentCloses, pyLastSlice]

/-- C3 (amended): the K-line trend over the last 10 closes (or fewer if the
batch is shorter) is bullish (`看涨`) iff the newest close is strictly
greater than the oldest close of that slice, and bearish (`看跌`) iff the
newest close is less than or equal to it; in particular equality yields
bearish, not bullish. -/
theorem kline_trend_strict_comparison (closes : List ℚ) (h : 2 ≤ closes.length) :
    (klineRecentCloses closes).getLastD 0 = closes.getLastD 0 ∧
    (klineTrend closes = "看涨" ↔ (klineRecentCloses closes).headD 0 < closes.getLastD 0) ∧
    (klineTrend closes = "看跌" ↔ closes.getLastD 0 ≤ (klineRecentCloses closes).headD 0) := by
  have hlast : (klineRecentCloses closes).getLastD 0 = closes.getLastD 0 := by
    unfold klineRecentCloses pyLastSlice
    split
    · rename_i h10
      rw [if_neg (by norm_num : ¬ (10 = 0))]
      rw [List.getLastD_eq_getLast?, List.getLastD_eq_getLast?,
        getLast?_drop_of_lt closes _ (by omega)]
    · rfl
  have key : klineTrend closes =
      if (klineRecentCloses closes).headD 0 < closes.getLastD 0 then "看涨" else "看跌" := by
    simp only [klineTrend]
    rw [hlast]
  refine ⟨hlast, ?_, ?_⟩
  · rw [key]
    by_cases hc : (klineRecentCloses closes).headD 0 < closes.getLastD 0
    · rw [if_pos hc]
      exact ⟨fun _ => hc, fun _ => rfl⟩
    · rw [if_neg hc]
      exact ⟨fun habs => absurd habs (by decide), fun hlt => absurd hlt hc⟩
  · rw [key]
    by_cases hc : (klineRecentCloses closes).headD 0 < closes.getLastD 0
    · rw [if_pos hc]
      exact ⟨fun habs => absurd habs (by decide), fun hle => absurd hc (not_lt.mpr hle)⟩
    · rw [if_neg hc]
      exact ⟨fun _ => not_lt.mp hc, fun _ => rfl⟩

/-- Witness for C3 at the batch `[1, 2]`: the trend is bullish because
`2 > 1`. -/
theorem kline_trend_strict_comparison_witness :
    klineTrend [(1 : ℚ), 2] = "看涨" :=
  ((kline_trend_strict_comparison [(1 : ℚ), 2] (by norm_num)).2.1).2 (by decide)

/-! C4 — the composer's RSI rule. -/

/-- C4 counterexample: `RSI = 0` is a present numeric value, yet Python's
`if rsi:` treats it as falsy, so no RSI statement is emitted — with every
other indicator absent the whole output degenerates to the fallback. -/
theorem rsi_zero_omitted :
    rsiBlock (some (0 : ℚ)) = [] ∧
    finalInterpretations 1 "数据不足" none (some 0) ⟨none, none⟩ none "未知" =
      ["技术指标不足，建议观望"] := by
  constructor
  · simp [rsiBlock, pyTruthy]
  · simp [finalInterpretations, interpretationList, trendBlock, smaBlock, rsiBlock,
      srBlock, momentumBlock, klineBlock, pyTruthy]

/-- C4 (amended): the RSI statement is omitted exactly when RSI is absent
**or equal to 0** (Python truthiness); for every present nonzero RSI the
composer emits exactly one RSI statement, chosen by the 70/30 thresholds. -/
theorem rsi_statement_rule (r : ℚ) (hr : r ≠ 0) :
    rsiBlock none = [] ∧ rsiBlock (some 0) = [] ∧
    (rsiBlock (some r)).length = 1 ∧
    (70 < r → rsiBlock (some r) = ["RSI超买(" ++ ratStr r ++ ")，可能出现回调"]) ∧
    (r < 30 → rsiBlock (some r) = ["RSI超卖(" ++ ratStr r ++ ")，可能出现反弹"]) ∧
    (30 ≤ r → r ≤ 70 → rsiBlock (some r) = ["RSI中性(" ++ ratStr r ++ ")，趋势稳定"]) := by
  have ht : pyTruthy (some r) = true := by simp [pyTruthy, hr]
  refine ⟨rfl, by simp [rsiBlock, pyTruthy], ?_, ?_, ?_, ?_⟩
  · simp only [rsiBlock, ht, if_true]
    split_ifs <;> rfl
  · intro h70
    simp [rsiBlock, ht, h70]
  · intro h30
    have hn70 : ¬ (70 : ℚ) < r := by linarith
    simp [rsiBlock, ht, h30, hn70]
  · intro h30 h70
    have hn70 : ¬ (70 : ℚ) < r := not_lt.mpr h70
    have hn30 : ¬ r < 30 := not_lt.mpr h30
    simp [rsiBlock, ht, hn70, hn30]

/-- Witness for C4 at `RSI = 50`: present and nonzero, one neutral
statement. -/
theorem rsi_statement_rule_witness :
    (rsiBlock (some (50 : ℚ))).length = 1 ∧
    rsiBlock (some (50 : ℚ)) = ["RSI中性(" ++ ratStr 50 ++ ")，趋势稳定"] :=
  ⟨(rsi_statement_rule 50 (by norm_num)).2.2.1,
   (rsi_statement_rule 50 (by norm_num)).2.2.2.2.2 (by norm_num) (by norm_num)⟩

/-! C5 — the fallback statement. -/

/-- C5: with trend `数据不足` (insufficient) and every other indicator input
absent, the composer's statement list is exactly the single fallback
statement `技术指标不足，建议观望`, and the composed line is exactly
`市场解读: ` followed by it. -/
theorem fallback_single_statement (current_price : ℚ) (volatility : Option ℝ)
    (kv ks kr : String) :
    finalInterpretations current_price "数据不足" none none ⟨none, none⟩ none "未知" =
      ["技术指标不足，建议观望"] ∧
    generate_interpretation current_price "数据不足" none none ⟨none, none⟩ volatility none
      "未知" kv ks kr = "市场解读: 技术指标不足，建议观望" := by
  constructor
  · rfl
  · rfl

/-! C6 — fetch failure leaves the window unchanged. -/

/-- C6: whenever the ticker fetch fails (`get_hsk_price` returns `None` —
HTTP error, timeout, connection error, malformed payload, or an empty list),
the monitor cycle leaves the analyzer state, in particular the price window,
exactly as it was. -/
theorem fetch_failure_window_unchanged (s : TechnicalAnalyzer)
    (resp : Option (List TickerData)) (now : ℕ) (h : get_hsk_price resp = none) :
    mainCycle s resp now = s ∧ (mainCycle s resp now).prices = s.prices ∧
    (mainCycle s resp now).timestamps = s.timestamps := by
  have : mainCycle s resp now = s := by
    unfold mainCycle
    rw [h]
  exact ⟨this, by rw [this], by rw [this]⟩

/-- Witness for C6: a transport failure (`resp = none`) on a concrete
one-price window. -/
theorem fetch_failure_window_unchanged_witness :
    mainCycle ⟨[1], [0], 20⟩ none 5 = ⟨[1], [0], 20⟩ :=
  (fetch_failure_window_unchanged ⟨[1], [0], 20⟩ none 5 rfl).1

/-! C7 — the price-window FIFO invariant. -/

/-- C7: starting from a window within capacity, any sequence of appends
keeps the length at most the capacity; an append on a window exactly at a
positive capacity evicts the oldest element and appends the new price last,
and an append below capacity simply appends. -/
theorem price_window_fifo_invariant (s : TechnicalAnalyzer) (ps : List (ℚ × ℕ))
    (p : ℚ) (t : ℕ) (hlen : s.prices.length ≤ s.lookback_period) :
    (add_prices s ps).prices.length ≤ s.lookback_period ∧
    (s.prices.length = s.lookback_period → 1 ≤ s.lookback_period →
      (add_price s p t).prices = s.prices.tail ++ [p]) ∧
    (s.prices.length < s.lookback_period → (add_price s p t).prices = s.prices ++ [p]) := by
  refine ⟨(add_prices_length_le ps s hlen).1, ?_, ?_⟩
  · intro hcap hpos
    show (s.prices ++ [p]).drop (s.prices.length + 1 - s.lookback_period) = s.prices.tail ++ [p]
    have h1 : s.prices.length + 1 - s.lookback_period = 1 := by omega
    rw [h1, List.drop_append_of_le_length (by omega), List.drop_one]
  · intro hlt
    show (s.prices ++ [p]).drop (s.prices.length + 1 - s.lookback_period) = s.prices ++ [p]
    have h0 : s.prices.length + 1 - s.lookback_period = 0 := by omega
    rw [h0, List.drop_zero]

/-- Witness for C7 on a concrete capacity-3 analyzer, both at capacity and
below it. -/
theorem price_window_fifo_invariant_witness :
    (add_prices ⟨[1, 2, 3], [0, 1, 2], 3⟩ [(4, 3), (5, 4)]).prices.length ≤ 3 ∧
    (add_price ⟨[1, 2, 3], [0, 1, 2], 3⟩ 4 3).prices = [2, 3, 4] ∧
    (add_price ⟨[1, 2], [0, 1], 3⟩ 4 2).prices = [1, 2, 4] := by
  refine ⟨(price_window_fifo_invariant ⟨[1, 2, 3], [0, 1, 2], 3⟩ [(4, 3), (5, 4)] 4 3
    (by norm_num)).1, ?_, ?_⟩
  · have := (price_window_fifo_invariant ⟨[1, 2, 3], [0, 1, 2], 3⟩ [] 4 3
      (by norm_num)).2.1 (by norm_num) (by norm_num)
    simpa using this
  · have := (price_window_fifo_invariant ⟨[1, 2], [0, 1], 3⟩ [] 4 2
      (by norm_num)).2.2 (by norm_num)
    simpa using this

/-! C10 — SMA with the default period on an empty window. -/

/-- C10: with the default period on an empty window, `period` becomes
`min(capacity, 0) = 0`, the `length < period` guard does not fire, and the
`sum/period` division raises `ZeroDivisionError` (embedded as
`Except.error ()`); on every non-empty window within capacity the default
period is positive and the function returns a numeric SMA, so neither the
`None` branch nor the error is reachable. -/
theorem sma_empty_window_division_by_zero (s : TechnicalAnalyzer) :
    (s.prices = [] → calculate_sma s none = Except.error ()) ∧
    (s.prices ≠ [] → s.prices.length ≤ s.lookback_period →
      0 < min s.lookback_period s.prices.length ∧
      ∃ q, calculate_sma s none = Except.ok (some q)) := by
  constructor
  · intro he
    simp [calculate_sma, he]
  · intro hne hcap
    have hlen : 0 < s.prices.length := List.length_pos.mpr hne
    have hpos : 0 < min s.lookback_period s.prices.length := lt_min (by omega) hlen
    refine ⟨hpos, ?_⟩
    unfold calculate_sma
    rw [if_neg (by omega : ¬ s.prices.length < min s.lookback_period s.prices.length),
      if_neg (by omega : ¬ min s.lookback_period s.prices.length = 0)]
    exact ⟨_, rfl⟩

/-! C1 — the RSI history requirement. -/

/-- With at least `period + 1 = 15` prices, the RSI loop starts at index
`len - 14 ≥ 1`, so the `continue` at `i == 0` never fires and no index is
filtered out. -/
theorem rsiIdx_eq (prices : List ℚ) (h : 15 ≤ prices.length) :
    rsiIdx prices 14 = (List.range prices.length).drop (prices.length - 14) := by
  unfold rsiIdx
  rw [List.filter_eq_self]
  intro a ha
  rw [List.mem_iff_getElem] at ha
  obtain ⟨j, hj, hja⟩ := ha
  rw [List.getElem_drop, List.getElem_range] at hja
  simp only [ne_eq, decide_eq_true_eq]
  omega

/-- With at least 15 prices the RSI loop samples exactly 14 indices. -/
theorem rsiIdx_length (prices : List ℚ) (h : 15 ≤ prices.length) :
    (rsiIdx prices 14).length = 14 := by
  rw [rsiIdx_eq prices h, List.length_drop, List.length_range]
  omega

/-- With at least `period + 1` prices, the gains/losses arrays have the full
`period` samples and `calculate_rsi` returns a numeric value. -/
theorem rsi_long_history_numeric (s : TechnicalAnalyzer) (hge : 15 ≤ s.prices.length) :
    (rsiGains s.prices 14).length = 14 ∧ (rsiLosses s.prices 14).length = 14 ∧
    ∃ q, calculate_rsi s 14 = some q := by
  have hg : (rsiGains s.prices 14).length = 14 := by
    unfold rsiGains
    rw [List.length_map, rsiIdx_length s.prices hge]
  have hl : (rsiLosses s.prices 14).length = 14 := by
    unfold rsiLosses
    rw [List.length_map, rsiIdx_length s.prices hge]
  refine ⟨hg, hl, ?_⟩
  simp only [calculate_rsi]
  rw [if_neg (by omega), if_neg (by rw [hg, hl]; omega)]
  by_cases hz : (pyLastSlice 14 (rsiLosses s.prices 14)).sum / ((14 : ℕ) : ℚ) = 0
  · rw [if_pos hz]
    exact ⟨100, rfl⟩
  · rw [if_neg hz]
    exact ⟨_, rfl⟩

/-- C1 counterexample: on a window holding exactly `period + 1 = 15` prices,
the gains/losses arrays have length `period = 14` (not `period - 1`), and
`calculate_rsi` returns a numeric RSI (not `None`) — the spec's governing
rule of requiring strictly more than `period + 1` points is false of the
code. -/
theorem rsi_at_period_plus_one_numeric :
    ([(1 : ℚ), 2, 3, 4, 5, 6, 7, 8, 9, 10, 11, 12, 13, 14, 15].length = 15) ∧
    (rsiGains [(1 : ℚ), 2, 3, 4, 5, 6, 7, 8, 9, 10, 11, 12, 13, 14, 15] 14).length = 14 ∧
    calculate_rsi ⟨[(1 : ℚ), 2, 3, 4, 5, 6, 7, 8, 9, 10, 11, 12, 13, 14, 15],
      List.range 15, 20⟩ 14 ≠ none := by
  have h := rsi_long_history_numeric
    ⟨[(1 : ℚ), 2, 3, 4, 5, 6, 7, 8, 9, 10, 11, 12, 13, 14, 15], List.range 15, 20⟩ (by decide)
  refine ⟨by decide, h.1, ?_⟩
  obtain ⟨q, hq⟩ := h.2.2
  rw [hq]
  exact Option.some_ne_none q

/-- C1 (amended): `calculate_rsi(period=14)` returns `None` exactly when the
window holds fewer than `period + 1 = 15` prices; as soon as the window
holds `period + 1` prices or more, the `i == 0` skip is dead code, the
gains/losses arrays hold exactly `period` samples, and a numeric RSI is
returned. -/
theorem rsi_history_requirement (s : TechnicalAnalyzer) :
    (s.prices.length < 15 → calculate_rsi s 14 = none) ∧
    (15 ≤ s.prices.length →
      (rsiGains s.prices 14).length = 14 ∧ (rsiLosses s.prices 14).length = 14 ∧
      ∃ q, calculate_rsi s 14 = some q) := by
  constructor
  · intro hlt
    simp only [calculate_rsi]
    rw [if_pos (by omega)]
  · exact rsi_long_history_numeric s

/-- Witness for C1: a three-price window is below the history requirement
and yields no RSI. -/
theorem rsi_history_requirement_witness :
    calculate_rsi ⟨[(1 : ℚ), 2, 3], [0, 1, 2], 20⟩ 14 = none :=
  (rsi_history_requirement ⟨[(1 : ℚ), 2, 3], [0, 1, 2], 20⟩).1 (by decide)

/-! C9 — indicator purity and determinism. -/

/-- C9: every indicator, at the default arguments the monitor uses, is a
function of the price snapshot alone: two analyzer states with equal price
lists (timestamps and capacity may differ, as long as the window invariant
`length ≤ capacity` holds) yield equal SMA, EMA, RSI, trend,
support/resistance, volatility and momentum.  In the embedding the
indicators are value-returning functions on the state, so they cannot
mutate the window. -/
theorem indicator_snapshot_determinism (s1 s2 : TechnicalAnalyzer)
    (hp : s1.prices = s2.prices)
    (h1 : s1.prices.length ≤ s1.lookback_period)
    (h2 : s2.prices.length ≤ s2.lookback_period) :
    calculate_sma s1 none = calculate_sma s2 none ∧
    calculate_ema s1 12 = calculate_ema s2 12 ∧
    calculate_rsi s1 14 = calculate_rsi s2 14 ∧
    get_trend s1 = get_trend s2 ∧
    analyze_support_resistance s1 8 = analyze_support_resistance s2 8 ∧
    get_volatility s1 5 = get_volatility s2 5 ∧
    get_momentum s1 5 = get_momentum s2 5 := by
  have hmin1 : min s1.lookback_period s2.prices.length = s2.prices.length := by
    rw [← hp]
    exact min_eq_right h1
  have hmin2 : min s2.lookback_period s2.prices.length = s2.prices.length := min_eq_right h2
  refine ⟨?_, ?_, ?_, ?_, ?_, ?_, ?_⟩
  · simp only [calculate_sma, hp, hmin1, hmin2]
  · simp only [calculate_ema, hp]
  · simp only [calculate_rsi, hp]
  · simp only [get_trend, hp]
  · simp only [analyze_support_resistance, hp]
  · simp only [get_volatility, hp]
  · simp only [get_momentum, hp]

/-- Witness for C9: same five prices, different timestamps and capacities. -/
theorem indicator_snapshot_determinism_witness :
    calculate_sma ⟨[(1 : ℚ), 2, 3, 4, 5], [0, 1, 2, 3, 4], 20⟩ none =
      calculate_sma ⟨[(1 : ℚ), 2, 3, 4, 5], [7, 7, 7, 7, 7], 9⟩ none ∧
    get_trend ⟨[(1 : ℚ), 2, 3, 4, 5], [0, 1, 2, 3, 4], 20⟩ =
      get_trend ⟨[(1 : ℚ), 2, 3, 4, 5], [7, 7, 7, 7, 7], 9⟩ := by
  have h := indicator_snapshot_determinism ⟨[(1 : ℚ), 2, 3, 4, 5], [0, 1, 2, 3, 4], 20⟩
    ⟨[(1 : ℚ), 2, 3, 4, 5], [7, 7, 7, 7, 7], 9⟩ rfl (by decide) (by decide)
  exact ⟨h.1, h.2.2.2.1⟩

/-! C8 — trend classification is scale invariant. -/

/-- C8: multiplying every price by a positive constant yields the same trend
label: the guard, the all-identical test and the strict comparisons of the
last five prices are all preserved by scaling. -/
theorem trend_scale_invariance (s : TechnicalAnalyzer) (c : ℚ)
    (h5 : 5 ≤ s.prices.length) (hc : 0 < c) :
    get_trend { s with prices := s.prices.map (fun p => c * p) } = get_trend s := by
  have hinj : Function.Injective (fun p : ℚ => c * p) := fun a b hab =>
    mul_left_cancel₀ (ne_of_gt hc) hab
  have hslice : pyLastSlice 5 (s.prices.map (fun p => c * p)) =
      (pyLastSlice 5 s.prices).map (fun p => c * p) := by
    unfold pyLastSlice
    rw [if_neg (by norm_num), if_neg (by norm_num), List.length_map, List.map_drop]
  have hcard : ((pyLastSlice 5 s.prices).map (fun p => c * p)).toFinset.card =
      (pyLastSlice 5 s.prices).toFinset.card := by
    have himg : ((pyLastSlice 5 s.prices).map (fun p => c * p)).toFinset =
        (pyLastSlice 5 s.prices).toFinset.image (fun p => c * p) := by
      ext x
      simp [List.mem_toFinset, Finset.mem_image, List.mem_map]
    rw [himg, Finset.card_image_of_injective _ hinj]
  have hgd : ∀ i : ℕ, ((pyLastSlice 5 s.prices).map (fun p => c * p)).getD i 0 =
      c * (pyLastSlice 5 s.prices).getD i 0 := by
    intro i
    calc ((pyLastSlice 5 s.prices).map (fun p => c * p)).getD i 0
        = ((pyLastSlice 5 s.prices).map (fun p => c * p)).getD i (c * 0) := by
          rw [mul_zero]
      _ = c * (pyLastSlice 5 s.prices).getD i 0 := List.getD_map _ 0 _
  simp only [get_trend, List.length_map, hslice, hcard, hgd, mul_lt_mul_left hc]

/-- Witness for C8: doubling the prices `[1,2,3,4,5]` keeps the trend. -/
theorem trend_scale_invariance_witness :
    get_trend { (⟨[(1 : ℚ), 2, 3, 4, 5], [0, 1, 2, 3, 4], 20⟩ : TechnicalAnalyzer) with
        prices := [(1 : ℚ), 2, 3, 4, 5].map (fun p => 2 * p) } =
      get_trend ⟨[(1 : ℚ), 2, 3, 4, 5], [0, 1, 2, 3, 4], 20⟩ :=
  trend_scale_invariance ⟨[(1 : ℚ), 2, 3, 4, 5], [0, 1, 2, 3, 4], 20⟩ 2 (by decide) (by decide)

/-! C2 — K-line support/resistance.  Helper facts about `listMax`/`listMin`
and the head of a sorted list. -/

/-- Python's `max` of a nonempty list is a member and an upper bound. -/
theorem listMax_spec (xs : List ℚ) (hx : xs ≠ []) :
    listMax xs ∈ xs ∧ ∀ b ∈ xs, b ≤ listMax xs := by
  obtain ⟨m, hm⟩ : ∃ m, xs.max? = some m := by
    cases hmx : xs.max? with
    | none => exact absurd (List.max?_eq_none_iff.mp hmx) hx
    | some m => exact ⟨m, rfl⟩
  have hmem : m ∈ xs := List.max?_mem max_choice hm
  have hle : ∀ b ∈ xs, b ≤ m := (List.max?_le_iff (fun _ _ _ => max_le_iff) hm).mp le_rfl
  have hlm : listMax xs = m := by
    unfold listMax
    rw [hm]
    rfl
  rw [hlm]
  exact ⟨hmem, hle⟩

/-- Python's `min` of a nonempty list is a member and a lower bound. -/
theorem listMin_spec (xs : List ℚ) (hx : xs ≠ []) :
    listMin xs ∈ xs ∧ ∀ b ∈ xs, listMin xs ≤ b := by
  obtain ⟨m, hm⟩ : ∃ m, xs.min? = some m := by
    cases hmx : xs.min? with
    | none => exact absurd (List.min?_eq_none_iff.mp hmx) hx
    | some m => exact ⟨m, rfl⟩
  have hmem : m ∈ xs := List.min?_mem min_choice hm
  have hle : ∀ b ∈ xs, m ≤ b := (List.le_min?_iff (fun _ _ _ => le_min_iff) hm).mp le_rfl
  have hlm : listMin xs = m := by
    unfold listMin
    rw [hm]
    rfl
  rw [hlm]
  exact ⟨hmem, hle⟩

/-- A member that bounds the list from above is its `listMax`. -/
theorem listMax_eq_of (xs : List ℚ) (a : ℚ) (ha : a ∈ xs) (hall : ∀ b ∈ xs, b ≤ a) :
    listMax xs = a := by
  have hne : xs ≠ [] := fun h => absurd (h ▸ ha) (List.not_mem_nil a)
  have hs := listMax_spec xs hne
  exact le_antisymm (hall _ hs.1) (hs.2 a ha)

/-- A member that bounds the list from below is its `listMin`. -/
theorem listMin_eq_of (xs : List ℚ) (a : ℚ) (ha : a ∈ xs) (hall : ∀ b ∈ xs, a ≤ b) :
    listMin xs = a := by
  have hne : xs ≠ [] := fun h => absurd (h ▸ ha) (List.not_mem_nil a)
  have hs := listMin_spec xs hne
  exact le_antisymm (hs.2 a ha) (hall _ hs.1)

/-- The head of a descending sort of a nonempty list is a greatest element. -/
theorem head_sort_desc (l : List ℚ) (hl : l ≠ []) :
    ∃ h, (l.mergeSort (fun a b => decide (b ≤ a))).head? = some h ∧ h ∈ l ∧
      ∀ x ∈ l, x ≤ h := by
  cases hms : l.mergeSort (fun a b => decide (b ≤ a)) with
  | nil =>
    exfalso
    have hlen := @List.length_mergeSort ℚ (fun a b : ℚ => decide (b ≤ a)) l
    rw [hms] at hlen
    exact hl (List.length_eq_zero.mp (by simpa using hlen.symm))
  | cons h t =>
    have hsorted := @List.sorted_mergeSort ℚ (fun a b : ℚ => decide (b ≤ a))
      (fun a b c hab hbc => by
        simp only [decide_eq_true_eq] at hab hbc ⊢
        exact le_trans hbc hab)
      (fun a b => by
        simp only [Bool.or_eq_true, decide_eq_true_eq]
        exact le_total b a)
      l
    rw [hms] at hsorted
    refine ⟨h, rfl, ?_, ?_⟩
    · have hmem : h ∈ l.mergeSort (fun a b => decide (b ≤ a)) := by
        rw [hms]
        exact List.mem_cons_self h t
      exact List.mem_mergeSort.mp hmem
    · intro x hx
      have hx' : x ∈ h :: t := by
        rw [← hms]
        exact List.mem_mergeSort.mpr hx
      rcases List.mem_cons.mp hx' with hxe | hxt
      · exact le_of_eq hxe
      · have hp := (List.pairwise_cons.mp hsorted).1 x hxt
        simpa using hp

/-- The head of an ascending sort of a nonempty list is a least element. -/
theorem head_sort_asc (l : List ℚ) (hl : l ≠ []) :
    ∃ h, (l.mergeSort (fun a b => decide (a ≤ b))).head? = some h ∧ h ∈ l ∧
      ∀ x ∈ l, h ≤ x := by
  cases hms : l.mergeSort (fun a b => decide (a ≤ b)) with
  | nil =>
    exfalso
    have hlen := @List.length_mergeSort ℚ (fun a b : ℚ => decide (a ≤ b)) l
    rw [hms] at hlen
    exact hl (List.length_eq_zero.mp (by simpa using hlen.symm))
  | cons h t =>
    have hsorted := @List.sorted_mergeSort ℚ (fun a b : ℚ => decide (a ≤ b))
      (fun a b c hab hbc => by
        simp only [decide_eq_true_eq] at hab hbc ⊢
        exact le_trans hab hbc)
      (fun a b => by
        simp only [Bool.or_eq_true, decide_eq_true_eq]
        exact le_total a b)
      l
    rw [hms] at hsorted
    refine ⟨h, rfl, ?_, ?_⟩
    · have hmem : h ∈ l.mergeSort (fun a b => decide (a ≤ b)) := by
        rw [hms]
        exact List.mem_cons_self h t
      exact List.mem_mergeSort.mp hmem
    · intro x hx
      have hx' : x ∈ h :: t := by
        rw [← hms]
        exact List.mem_mergeSort.mpr hx
      rcases List.mem_cons.mp hx' with hxe | hxt
      · exact le_of_eq hxe.symm
      · have hp := (List.pairwise_cons.mp hsorted).1 x hxt
        simpa using hp

/-- Taking the first five of a descending sort and then the head is just the
maximum of the list. -/
theorem head_take5_desc (l : List ℚ) (hl : l ≠ []) :
    ((l.mergeSort (fun a b => decide (b ≤ a))).take 5).head? = some (listMax l) := by
  obtain ⟨h, hhead, hmem, hall⟩ := head_sort_desc l hl
  rw [List.head?_take, if_neg (by norm_num), hhead]
  exact congrArg some (listMax_eq_of l h hmem hall).symm

/-- Taking the first five of an ascending sort and then the head is just the
minimum of the list. -/
theorem head_take5_asc (l : List ℚ) (hl : l ≠ []) :
    ((l.mergeSort (fun a b => decide (a ≤ b))).take 5).head? = some (listMin l) := by
  obtain ⟨h, hhead, hmem, hall⟩ := head_sort_asc l hl
  rw [List.head?_take, if_neg (by norm_num), hhead]
  exact congrArg some (listMin_eq_of l h hmem hall).symm

/-- A trailing window at an in-range index is nonempty. -/
theorem trailingWindow_ne_nil (closes : List ℚ) (i : ℕ) (hi : i < closes.length) :
    trailingWindow closes i ≠ [] := by
  unfold trailingWindow
  intro habs
  have hlen := congrArg List.length habs
  simp only [List.length_take, List.length_drop, List.length_nil] at hlen
  omega

/-- A trailing window only contains batch elements. -/
theorem mem_of_mem_trailingWindow (closes : List ℚ) (i : ℕ) :
    ∀ x ∈ trailingWindow closes i, x ∈ closes := by
  intro x hx
  unfold trailingWindow at hx
  exact List.mem_of_mem_drop (List.mem_of_mem_take hx)

/-- The element at index `j` belongs to the trailing window ending at `j`. -/
theorem self_mem_trailingWindow (closes : List ℚ) (j : ℕ) (hj : j < closes.length) :
    closes[j] ∈ trailingWindow closes j := by
  unfold trailingWindow
  rw [List.mem_iff_getElem]
  have hlen1 : j - (j - 5) < ((closes.drop (j - 5)).take (j + 1 - (j - 5))).length := by
    simp only [List.length_take, List.length_drop]
    omega
  refine ⟨j - (j - 5), hlen1, ?_⟩
  rw [List.getElem_take, List.getElem_drop]
  have hidx : j - 5 + (j - (j - 5)) = j := by omega
  simp only [hidx]

/-- The code's resistance — largest trailing-window maximum — is exactly the
global maximum of the batch. -/
theorem kline_resistance_eq (closes : List ℚ) (hne : closes ≠ []) :
    kline_resistance closes = some (listMax closes) := by
  have hlpos : 0 < closes.length := List.length_pos.mpr hne
  have hMne : ((List.range closes.length).map (fun i => listMax (trailingWindow closes i))) ≠ [] := by
    intro habs
    have hlen := congrArg List.length habs
    simp only [List.length_map, List.length_range, List.length_nil] at hlen
    omega
  unfold kline_resistance recent_highs
  rw [head_take5_desc _ hMne]
  refine congrArg some (listMax_eq_of _ _ ?_ ?_)
  · obtain ⟨j, hj, hjv⟩ := List.mem_iff_getElem.mp (listMax_spec closes hne).1
    have hwne := trailingWindow_ne_nil closes j hj
    have hweq : listMax (trailingWindow closes j) = listMax closes := by
      apply le_antisymm
      · exact (listMax_spec closes hne).2 _
          (mem_of_mem_trailingWindow closes j _ (listMax_spec _ hwne).1)
      · rw [← hjv]
        exact (listMax_spec _ hwne).2 _ (self_mem_trailingWindow closes j hj)
    exact List.mem_map.mpr ⟨j, List.mem_range.mpr hj, hweq⟩
  · intro b hb
    obtain ⟨i, hiR, hif⟩ := List.mem_map.mp hb
    have hi := List.mem_range.mp hiR
    have hwne := trailingWindow_ne_nil closes i hi
    rw [← hif]
    exact (listMax_spec closes hne).2 _
      (mem_of_mem_trailingWindow closes i _ (listMax_spec _ hwne).1)

/-- The code's support — smallest trailing-window minimum — is exactly the
global minimum of the batch. -/
theorem kline_support_eq (closes : List ℚ) (hne : closes ≠ []) :
    kline_support closes = some (listMin closes) := by
  have hlpos : 0 < closes.length := List.length_pos.mpr hne
  have hMne : ((List.range closes.length).map (fun i => listMin (trailingWindow closes i))) ≠ [] := by
    intro habs
    have hlen := congrArg List.length habs
    simp only [List.length_map, List.length_range, List.length_nil] at hlen
    omega
  unfold kline_support recent_lows
  rw [head_take5_asc _ hMne]
  refine congrArg some (listMin_eq_of _ _ ?_ ?_)
  · obtain ⟨j, hj, hjv⟩ := List.mem_iff_getElem.mp (listMin_spec closes hne).1
    have hwne := trailingWindow_ne_nil closes j hj
    have hweq : listMin (trailingWindow closes j) = listMin closes := by
      apply le_antisymm
      · rw [← hjv]
        exact (listMin_spec _ hwne).2 _ (self_mem_trailingWindow closes j hj)
      · exact (listMin_spec closes hne).2 _
          (mem_of_mem_trailingWindow closes j _ (listMin_spec _ hwne).1)
    exact List.mem_map.mpr ⟨j, List.mem_range.mpr hj, hweq⟩
  · intro b hb
    obtain ⟨i, hiR, hif⟩ := List.mem_map.mp hb
    have hi := List.mem_range.mp hiR
    have hwne := trailingWindow_ne_nil closes i hi
    rw [← hif]
    exact (listMin_spec closes hne).2 _
      (mem_of_mem_trailingWindow closes i _ (listMin_spec _ hwne).1)

/-- C2 counterexample: there is **no** batch of at least two closes on which
the trailing-window procedure differs from the global extrema — every close
lies in its own trailing window, so the most extreme trailing-window
extremum is always exactly the global max (resp. global min), refuting the
claim's "for some batch it differs". -/
theorem kline_sr_never_differs_from_global :
    ¬ ∃ closes : List ℚ, 2 ≤ closes.length ∧
      (kline_resistance closes ≠ some (listMax closes) ∨
       kline_support closes ≠ some (listMin closes)) := by
  rintro ⟨closes, hlen, hdiff⟩
  have hne : closes ≠ [] := by
    intro h
    rw [h] at hlen
    simp at hlen
  rcases hdiff with hd | hd
  · exact hd (kline_resistance_eq closes hne)
  · exact hd (kline_support_eq closes hne)

/-- C2 (amended): for every batch of at least 2 closes, the code does take,
for each index, the max (resp. min) of the trailing window of up to 6 points
ending there, sorts the per-index extrema descending (resp. ascending) and
takes the first — but this most extreme trailing-window extremum **always
equals** the global max (resp. global min) of the batch; it never differs. -/
theorem kline_sr_global_extrema (closes : List ℚ) (h : 2 ≤ closes.length) :
    kline_resistance closes = some (listMax closes) ∧
    kline_support closes = some (listMin closes) := by
  have hne : closes ≠ [] := by
    intro habs
    rw [habs] at h
    simp at h
  exact ⟨kline_resistance_eq closes hne, kline_support_eq closes hne⟩

/-- Witness for C2 on the batch `[1, 2]`. -/
theorem kline_sr_global_extrema_witness :
    kline_resistance [(1 : ℚ), 2] = some (listMax [(1 : ℚ), 2]) ∧
    kline_support [(1 : ℚ), 2] = some (listMin [(1 : ℚ), 2]) :=
  kline_sr_global_extrema [(1 : ℚ), 2] (by decide)

/-- Witness for C10: the empty window errors, the one-price window divides
by the positive default period. -/
theorem sma_empty_window_division_by_zero_witness :
    calculate_sma ⟨[], [], 20⟩ none = Except.error () ∧
    (0 < min 20 ([(5 : ℚ)].length) ∧ ∃ q, calculate_sma ⟨[5], [0], 20⟩ none = Except.ok (some q)) :=
  ⟨(sma_empty_window_division_by_zero ⟨[], [], 20⟩).1 rfl,
   (sma_empty_window_division_by_zero ⟨[5], [0], 20⟩).2 (by simp) (by simp)⟩

end HSK
